import Mathlib

/-!
Verification of the concurrent benchmark execution engine of the
postgres-mysql-loadtest-comparison repository.

The embedding below follows the two test-runner modules
(src/tests/writeTest.js and src/tests/readTest.js), the latency analysis of
the performance reporter (utils/reporter.js) and the data generator
(src/utils/dataGenerator.js).

Modelling conventions:
- JavaScript numbers that only ever hold integers (counts, indices,
  millisecond timestamps) are embedded as Nat.
- Expressions in which JavaScript float division by zero matters are
  embedded in an explicit JSNum type with Infinity, -Infinity and NaN.
  Where the code multiplies a count by a float constant
  (Math.floor of length times 0.5, 0.95 or 0.99) the embedding uses exact
  rational arithmetic; for these three constants the exact rational floor
  and the double-precision floor agree on all list lengths up to 10000
  (checked exhaustively), so the idealisation is faithful on every input
  the reporter can see in practice.
- Wall-clock measurements (Date.now differences) are not computable from
  the code; every latency or elapsed-time value is threaded through the
  definitions as an explicit parameter.
- The cooperative scheduler of runConcurrentWrites and runConcurrentReads
  is embedded as a small-step transition relation on an engine state: each
  worker lane is either idle with its pending strided index list or busy
  with one in-flight operation, exactly mirroring the
  activeTasks increment and decrement around each awaited operation.
-/

namespace LoadTest

/-- Outcome record of one write batch, as built by WriteTest.executeBatch
(writeTest.js lines 25-63).  The timestamp string field is omitted;
latency is the observed elapsed time in milliseconds, passed in explicitly
because it comes from the wall clock. -/
structure WriteRecord where
  batchIndex : Nat
  recordCount : Nat
  latency : Nat
  success : Bool
  error : Option String
deriving DecidableEq, Repr

/-- WriteTest.executeBatch: the backend call either succeeds or raises;
both outcomes are converted into a WriteRecord and no exception escapes.
On failure the record keeps recordCount = batchData.length (the attempted
batch size), exactly as in writeTest.js line 56. -/
def executeBatch (insertOutcome : Except String Unit)
    (batchLen batchIndex lat : Nat) : WriteRecord :=
  match insertOutcome with
  | .ok _ =>
    { batchIndex := batchIndex, recordCount := batchLen, latency := lat,
      success := true, error := none }
  | .error e =>
    { batchIndex := batchIndex, recordCount := batchLen, latency := lat,
      success := false, error := some e }

/-- One row of the llm_chat_message table, as generated by
dataGenerator.generateMessage. -/
structure ChatMessage where
  user_id : String
  role : String
  title : String
  message : String
  config : String
deriving DecidableEq, Repr

/-- Outcome record of one read query, as built by ReadTest.executeQuery
(readTest.js lines 27-59).  On failure the record has recordCount = 0
(readTest.js line 52). -/
structure ReadRecord where
  queryIndex : Nat
  userId : String
  recordCount : Nat
  latency : Nat
  success : Bool
  error : Option String
deriving DecidableEq, Repr

/-- ReadTest.executeQuery: getMessagesByUser either returns the rows or
raises; both outcomes become a ReadRecord. -/
def executeQuery (queryOutcome : Except String (List ChatMessage))
    (userId : String) (queryIndex lat : Nat) : ReadRecord :=
  match queryOutcome with
  | .ok msgs =>
    { queryIndex := queryIndex, userId := userId, recordCount := msgs.length,
      latency := lat, success := true, error := none }
  | .error e =>
    { queryIndex := queryIndex, userId := userId, recordCount := 0,
      latency := lat, success := false, error := some e }

/-- Aggregated units contributed by a record list: only successful records
are summed (writeTest.js line 97 adds recordCount only in the success
branch). -/
def successUnits (records : List WriteRecord) : Nat :=
  ((records.filter (·.success)).map (·.recordCount)).sum

/-- A JavaScript number result where division by zero matters. -/
inductive JSNum where
  | finite (val : ℚ)
  | inf
  | negInf
  | nan
deriving DecidableEq, Repr

/-- JavaScript division: x / 0 is Infinity for x > 0, -Infinity for x < 0
and NaN for 0 / 0. -/
def jsDiv (a b : ℚ) : JSNum :=
  if b = 0 then
    if 0 < a then .inf else if a < 0 then .negInf else .nan
  else .finite (a / b)

/-- Multiplication of a JavaScript number by the positive constant 1000. -/
def jsMul1000 : JSNum → JSNum
  | .finite v => .finite (v * 1000)
  | .inf => .inf
  | .negInf => .negInf
  | .nan => .nan

/-- The reported rate: writeTest.js line 123
(totalRecords / totalTime) * 1000, and identically for qps in
readTest.js line 118. -/
def computeTps (totalRecords totalTime : Nat) : JSNum :=
  jsMul1000 (jsDiv totalRecords totalTime)

/-- C4 counterexample: with a successful-unit total of 5 and a zero
wall-clock time the code computes Infinity, not the rate 0 that the claim
requires. -/
theorem rate_zero_wallclock_counterexample :
    computeTps 5 0 = JSNum.inf ∧ JSNum.inf ≠ JSNum.finite 0 := by
  refine ⟨by decide, by decide⟩

/-- C4 (amended): the reported rate equals totalUnits / wallClockMs * 1000
whenever wallClockMs > 0; when wallClockMs = 0 the code yields Infinity
for a positive unit total and NaN for a zero unit total, never 0.  The
throughput scenario of the specification, 1000 units in 2000 ms, gives
exactly 500 units per second. -/
theorem rate_formula_js (u t : Nat) :
    computeTps u t =
      (if t = 0 then (if u = 0 then JSNum.nan else JSNum.inf)
       else JSNum.finite ((u : ℚ) / t * 1000)) ∧
    computeTps 1000 2000 = JSNum.finite 500 := by
  constructor
  · unfold computeTps jsDiv jsMul1000
    by_cases ht : t = 0
    · subst ht
      by_cases hu : u = 0
      · subst hu; norm_num
      · have hu0 : (0 : ℚ) < u := by exact_mod_cast Nat.pos_of_ne_zero hu
        simp [hu, hu0]
    · have ht0 : ((t : ℚ)) ≠ 0 := by exact_mod_cast ht
      simp [ht, ht0]
  · unfold computeTps jsDiv jsMul1000
    norm_num

/-- C2 counterexample: a failing write batch of 3 records produces a record
whose recordCount field is 3, not the 0 units that the claim demands of a
failure record. -/
theorem write_failure_record_counterexample :
    (executeBatch (Except.error "connection lost") 3 0 7).success = false ∧
    (executeBatch (Except.error "connection lost") 3 0 7).recordCount = 3 ∧
    (3 : Nat) ≠ 0 := by
  refine ⟨rfl, rfl, by decide⟩

/-- C2 (amended): a failing backend operation is always converted into a
record (no exception escapes the executor), with success = false, the
error message preserved and the observed latency recorded.  The read
executor sets recordCount = 0 on failure; the write executor keeps the
attempted batch length in recordCount, but such a record contributes 0 to
the aggregated successful units. -/
theorem executor_failure_record_fields (e : String) (blen bidx lat qidx : Nat)
    (uid : String) :
    executeBatch (Except.error e) blen bidx lat =
      { batchIndex := bidx, recordCount := blen, latency := lat,
        success := false, error := some e } ∧
    executeQuery (Except.error e) uid qidx lat =
      { queryIndex := qidx, userId := uid, recordCount := 0,
        latency := lat, success := false, error := some e } ∧
    successUnits [executeBatch (Except.error e) blen bidx lat] = 0 := by
  exact ⟨rfl, rfl, rfl⟩

/-- Latencies of the successful records only, as selected by
reporter.generateLatencyAnalysis:
writeResults.batches.filter(b => b.success).map(b => b.latency). -/
def successLatencies (records : List WriteRecord) : List Nat :=
  (records.filter (·.success)).map (·.latency)

/-- The index used by the reporter for percentile p on a list of length n:
Math.floor(n * p). -/
def percentileIndex (n : Nat) (p : ℚ) : Nat := (⌊(n : ℚ) * p⌋).toNat

/-- reporter.generateLatencyAnalysis (reporter.js lines 205-247) for one
write result: filter the successful latencies, sort ascending, and read
the entries at Math.floor(n * 0.5), Math.floor(n * 0.95) and
Math.floor(n * 0.99).  The percentile block only runs when at least one
successful latency exists; otherwise no percentiles are produced. -/
def latencyAnalysisW (records : List WriteRecord) : Option (Nat × Nat × Nat) :=
  let latencies := successLatencies records
  if 0 < latencies.length then
    let sorted := List.insertionSort (· ≤ ·) latencies
    some (sorted.getD (percentileIndex latencies.length (1/2)) 0,
          sorted.getD (percentileIndex latencies.length (19/20)) 0,
          sorted.getD (percentileIndex latencies.length (99/100)) 0)
  else none

lemma percentileIndex_lt {n : Nat} (hn : 0 < n) {p : ℚ}
    (hp1 : p < 1) : percentileIndex n p < n := by
  have hlt : (n : ℚ) * p < (n : ℚ) := by
    have hn0 : (0 : ℚ) < n := by exact_mod_cast hn
    nlinarith
  have hfloor : ⌊(n : ℚ) * p⌋ < (n : ℤ) := by
    exact Int.floor_lt.mpr (by exact_mod_cast hlt)
  unfold percentileIndex
  omega

lemma percentileIndex_eval (n : Nat) (p : ℚ) (k : Nat)
    (h1 : (k : ℚ) ≤ (n : ℚ) * p) (h2 : (n : ℚ) * p < (k : ℚ) + 1) :
    percentileIndex n p = k := by
  unfold percentileIndex
  have : ⌊(n : ℚ) * p⌋ = (k : ℤ) := by
    rw [Int.floor_eq_iff]
    exact ⟨by exact_mod_cast h1, by exact_mod_cast h2⟩
  rw [this]
  omega

/-- The five-record example of the specification: successful write records
with latencies 10, 20, 30, 40, 50 ms. -/
def exampleRecords : List WriteRecord :=
  [executeBatch (Except.ok ()) 20 0 10,
   executeBatch (Except.ok ()) 20 1 20,
   executeBatch (Except.ok ()) 20 2 30,
   executeBatch (Except.ok ()) 20 3 40,
   executeBatch (Except.ok ()) 20 4 50]

/-- C5 counterexample: with no successful records the latency analysis
produces no percentile triple at all, rather than the all-zero
percentiles asserted by the claim. -/
theorem empty_latencies_counterexample :
    latencyAnalysisW [] = none ∧
    (none : Option (Nat × Nat × Nat)) ≠ some (0, 0, 0) := by
  refine ⟨rfl, by decide⟩

/-- C5 (amended): the analysis uses only latencies of successful records;
when at least one exists it sorts them ascending and returns the entries
at indices Math.floor(n p) for p = 0.5, 0.95, 0.99, each of which is
already below n, so the clamp to the valid range never engages; when no
successful latency exists the analysis block is skipped and no percentile
values are produced (not the value 0).  On the sorted example latencies
10, 20, 30, 40, 50 the p50 entry is 30 (index 2) and both the p95 and p99
entries are 50 (index 4). -/
theorem latency_percentiles_spec (records : List WriteRecord) :
    (successLatencies records = [] → latencyAnalysisW records = none) ∧
    (successLatencies records ≠ [] →
      ∃ l : List Nat, l.Perm (successLatencies records) ∧
        l.Sorted (· ≤ ·) ∧
        percentileIndex (successLatencies records).length (1/2) < l.length ∧
        percentileIndex (successLatencies records).length (19/20) < l.length ∧
        percentileIndex (successLatencies records).length (99/100) < l.length ∧
        latencyAnalysisW records =
          some (l.getD (percentileIndex (successLatencies records).length (1/2)) 0,
                l.getD (percentileIndex (successLatencies records).length (19/20)) 0,
                l.getD (percentileIndex (successLatencies records).length (99/100)) 0)) ∧
    latencyAnalysisW exampleRecords = some (30, 50, 50) := by
  refine ⟨?_, ?_, ?_⟩
  · intro h
    unfold latencyAnalysisW
    simp [h]
  · intro h
    have hn : 0 < (successLatencies records).length := by
      cases hsl : successLatencies records with
      | nil => exact absurd hsl h
      | cons a l => simp [hsl]
    refine ⟨List.insertionSort (· ≤ ·) (successLatencies records), ?_, ?_, ?_, ?_, ?_, ?_⟩
    · exact List.perm_insertionSort _ _
    · exact List.sorted_insertionSort _ _
    · rw [(List.perm_insertionSort (· ≤ ·) (successLatencies records)).length_eq]
      exact percentileIndex_lt hn (by norm_num)
    · rw [(List.perm_insertionSort (· ≤ ·) (successLatencies records)).length_eq]
      exact percentileIndex_lt hn (by norm_num)
    · rw [(List.perm_insertionSort (· ≤ ·) (successLatencies records)).length_eq]
      exact percentileIndex_lt hn (by norm_num)
    · unfold latencyAnalysisW
      simp [hn]
  · have h50 : percentileIndex 5 (1/2) = 2 := by
      apply percentileIndex_eval <;> norm_num
    have h95 : percentileIndex 5 (19/20) = 4 := by
      apply percentileIndex_eval <;> norm_num
    have h99 : percentileIndex 5 (99/100) = 4 := by
      apply percentileIndex_eval <;> norm_num
    have hlat : successLatencies exampleRecords = [10, 20, 30, 40, 50] := rfl
    unfold latencyAnalysisW
    rw [hlat]
    norm_num [h50, h95, h99]

/-- C5 witness input: one failing and three successful records with
unsorted latencies 42, 7, 19. -/
def mixedRecords : List WriteRecord :=
  [executeBatch (Except.error "timeout") 20 0 55,
   executeBatch (Except.ok ()) 20 1 42,
   executeBatch (Except.ok ()) 20 2 7,
   executeBatch (Except.ok ()) 20 3 19]

/-- C5 witness: the amended percentile theorem applied to a concrete
record list with successful latencies 42, 7, 19. -/
theorem latency_percentiles_witness :
    successLatencies mixedRecords ≠ [] ∧
    (∃ l : List Nat, l.Perm (successLatencies mixedRecords) ∧
      l.Sorted (· ≤ ·) ∧
      percentileIndex (successLatencies mixedRecords).length (1/2) < l.length ∧
      percentileIndex (successLatencies mixedRecords).length (19/20) < l.length ∧
      percentileIndex (successLatencies mixedRecords).length (99/100) < l.length ∧
      latencyAnalysisW mixedRecords =
        some (l.getD (percentileIndex (successLatencies mixedRecords).length (1/2)) 0,
              l.getD (percentileIndex (successLatencies mixedRecords).length (19/20)) 0,
              l.getD (percentileIndex (successLatencies mixedRecords).length (99/100)) 0)) :=
  ⟨by decide, (latency_percentiles_spec mixedRecords).2.1 (by decide)⟩

/-- Number of batches: Math.ceil(totalRecords / batchSize)
(writeTest.js line 70), as exact ceiling division. -/
def totalBatchesOf (totalRecords batchSize : Nat) : Nat :=
  (totalRecords + batchSize - 1) / batchSize

/-- Per-batch size: Math.min(batchSize, totalRecords - batchIndex * batchSize)
(writeTest.js line 88).  For every batchIndex below totalBatchesOf the
subtraction is positive, so Nat truncation agrees with the source. -/
def actualBatchSize (totalRecords batchSize batchIndex : Nat) : Nat :=
  min batchSize (totalRecords - batchIndex * batchSize)

/-- dataGenerator.generateMessages: a loop pushing one generated message per
iteration.  The random generator is abstracted as a function of the
iteration index; the loop contributes exactly count records. -/
def generateMessages {α : Type} (gen : Nat → α) (count : Nat) : List α :=
  (List.range count).map gen

/-- dataGenerator.generateBatch delegates to generateMessages. -/
def generateBatch {α : Type} (gen : Nat → α) (batchSize : Nat) : List α :=
  generateMessages gen batchSize

lemma generateBatch_length {α : Type} (gen : Nat → α) (count : Nat) :
    (generateBatch gen count).length = count := by
  simp [generateBatch, generateMessages]

lemma list_range_sum (n : Nat) (f : Nat → Nat) :
    ((List.range n).map f).sum = ∑ j ∈ Finset.range n, f j := by
  induction n with
  | zero => simp
  | succ n ih => simp [List.range_succ, Finset.sum_range_succ, ih]

lemma batch_sizes_sum {batchSize : Nat} (hb : 0 < batchSize) :
    ∀ totalRecords, 0 < totalRecords →
      ∑ b ∈ Finset.range (totalBatchesOf totalRecords batchSize),
        actualBatchSize totalRecords batchSize b = totalRecords := by
  intro totalRecords
  induction totalRecords using Nat.strong_induction_on with
  | _ tR ih =>
    intro htR
    by_cases hle : tR ≤ batchSize
    · have hone : totalBatchesOf tR batchSize = 1 := by
        unfold totalBatchesOf
        apply Nat.div_eq_of_lt_le <;> omega
      rw [hone, Finset.sum_range_one]
      unfold actualBatchSize
      omega
    · push_neg at hle
      have hsplit : totalBatchesOf tR batchSize =
          totalBatchesOf (tR - batchSize) batchSize + 1 := by
        unfold totalBatchesOf
        have h1 : tR + batchSize - 1 = ((tR - batchSize) + batchSize - 1) + batchSize := by
          omega
        rw [h1, Nat.add_div_right _ hb]
      rw [hsplit, Finset.sum_range_succ']
      have hcongr : ∀ b ∈ Finset.range (totalBatchesOf (tR - batchSize) batchSize),
          actualBatchSize tR batchSize (b + 1) =
          actualBatchSize (tR - batchSize) batchSize b := by
        intro b _
        unfold actualBatchSize
        have hmul : (b + 1) * batchSize = b * batchSize + batchSize := by ring
        rw [hmul]
        congr 1
        generalize b * batchSize = x
        omega
      rw [Finset.sum_congr rfl hcongr]
      have hrec : ∑ b ∈ Finset.range (totalBatchesOf (tR - batchSize) batchSize),
          actualBatchSize (tR - batchSize) batchSize b = tR - batchSize :=
        ih (tR - batchSize) (by omega) (by omega)
      rw [hrec]
      unfold actualBatchSize
      omega

/-- C9: for every positive totalRecords and batchSize, each of the
totalBatches = ceil(totalRecords / batchSize) batches has positive size
min(batchSize, totalRecords - batchIndex * batchSize), the sizes sum to
exactly totalRecords, and hence the records generated across all batches
number exactly totalRecords even when batchSize does not divide it. -/
theorem batch_partition_covers_total (tR bS : Nat) (gen : Nat → ChatMessage)
    (h1 : 1 ≤ tR) (h2 : 1 ≤ bS) :
    (∀ b, b < totalBatchesOf tR bS → 0 < actualBatchSize tR bS b) ∧
    ((List.range (totalBatchesOf tR bS)).map (fun b => actualBatchSize tR bS b)).sum = tR ∧
    (((List.range (totalBatchesOf tR bS)).map
        (fun b => generateBatch gen (actualBatchSize tR bS b))).flatten).length = tR := by
  have hpos : ∀ b, b < totalBatchesOf tR bS → 0 < actualBatchSize tR bS b := by
    intro b hb
    have hdiv : (b + 1) * bS ≤ tR + bS - 1 :=
      (Nat.le_div_iff_mul_le h2).mp hb
    have hmul : (b + 1) * bS = b * bS + bS := by ring
    unfold actualBatchSize
    rw [hmul] at hdiv
    generalize hx : b * bS = x at hdiv
    omega
  have hsum : ((List.range (totalBatchesOf tR bS)).map
      (fun b => actualBatchSize tR bS b)).sum = tR := by
    rw [list_range_sum]
    exact batch_sizes_sum h2 tR h1
  refine ⟨hpos, hsum, ?_⟩
  rw [List.length_flatten, List.map_map]
  have : (List.length ∘ fun b => generateBatch gen (actualBatchSize tR bS b)) =
      fun b => actualBatchSize tR bS b := by
    funext b
    simp [generateBatch_length]
  rw [this, hsum]

/-- C9 witness: 7 records in batches of 3 give batch sizes 3, 3, 1 summing
to 7. -/
theorem batch_partition_witness :
    ((List.range (totalBatchesOf 7 3)).map (fun b => actualBatchSize 7 3 b)).sum = 7 ∧
    0 < actualBatchSize 7 3 2 :=
  ⟨(batch_partition_covers_total 7 3 (fun _ => ⟨"", "", "", "", ""⟩)
      (by decide) (by decide)).2.1,
   (batch_partition_covers_total 7 3 (fun _ => ⟨"", "", "", "", ""⟩)
      (by decide) (by decide)).1 2 (by decide)⟩

/-- Count of failed records in a list (writeTest.js line 99 increments
errors once per failed record). -/
def failureCount (records : List WriteRecord) : Nat :=
  (records.filter (fun r => !r.success)).length

/-- Minimum latency over a record list, with the JavaScript initial value
Infinity embedded as the top element. -/
def latencyMin (records : List WriteRecord) : WithTop Nat :=
  (records.map (fun r => (r.latency : WithTop Nat))).foldr min ⊤

/-- Maximum latency over a record list, with the JavaScript initial value
0. -/
def latencyMax (records : List WriteRecord) : Nat :=
  (records.map (·.latency)).foldr max 0

/-- The mutable this.results object of WriteTest (writeTest.js lines
10-19).  tps is a JSNum because it is produced by a float division;
avgLatency is the float average of successful latencies. -/
structure WriteResults where
  totalRecords : Nat
  totalTime : Nat
  tps : JSNum
  errors : Nat
  batches : List WriteRecord
  avgLatency : ℚ
  minLatency : WithTop Nat
  maxLatency : Nat
deriving DecidableEq, Repr

/-- The constructor state of this.results (writeTest.js lines 10-19):
all counters 0, minLatency = Infinity. -/
def initialResults : WriteResults :=
  { totalRecords := 0, totalTime := 0, tps := .finite 0, errors := 0,
    batches := [], avgLatency := 0, minLatency := ⊤, maxLatency := 0 }

/-- Per-record mutation of this.results (writeTest.js lines 95-104): a
successful record adds its recordCount to totalRecords, a failed record
increments errors; the latency extremes are folded in for every record. -/
def recordStep (res : WriteResults) (r : WriteRecord) : WriteResults :=
  let res :=
    if r.success then { res with totalRecords := res.totalRecords + r.recordCount }
    else { res with errors := res.errors + 1 }
  { res with minLatency := min res.minLatency (r.latency : WithTop Nat),
             maxLatency := max res.maxLatency r.latency }

/-- The completion block of runConcurrentWrites (writeTest.js lines
120-131): set totalTime to the elapsed wall clock, compute tps from the
accumulated totalRecords, store the record list, and overwrite avgLatency
only when at least one successful record exists in this run. -/
def finalizeResults (res : WriteResults) (records : List WriteRecord)
    (wallClock : Nat) : WriteResults :=
  let successes := records.filter (·.success)
  { res with
    totalTime := wallClock,
    tps := computeTps res.totalRecords wallClock,
    batches := records,
    avgLatency :=
      if 0 < successes.length then
        ((successes.map (·.latency)).sum : ℚ) / successes.length
      else res.avgLatency }

/-- One call of runConcurrentWrites at the results level: fold the per-record
updates over the records this run produces, then finalize.  The starting
state res is the instance state this.results, which the code never resets
between runs. -/
def runWriteAggregate (res : WriteResults) (records : List WriteRecord)
    (wallClock : Nat) : WriteResults :=
  finalizeResults (records.foldl recordStep res) records wallClock

lemma foldl_recordStep (rs : List WriteRecord) :
    ∀ res : WriteResults,
      (rs.foldl recordStep res).totalRecords = res.totalRecords + successUnits rs ∧
      (rs.foldl recordStep res).errors = res.errors + failureCount rs ∧
      (rs.foldl recordStep res).minLatency = min res.minLatency (latencyMin rs) ∧
      (rs.foldl recordStep res).maxLatency = max res.maxLatency (latencyMax rs) ∧
      (rs.foldl recordStep res).avgLatency = res.avgLatency ∧
      (rs.foldl recordStep res).totalTime = res.totalTime ∧
      (rs.foldl recordStep res).tps = res.tps ∧
      (rs.foldl recordStep res).batches = res.batches := by
  induction rs with
  | nil =>
    intro res
    simp [successUnits, failureCount, latencyMin, latencyMax]
  | cons r rs ih =>
    intro res
    have hstep := ih (recordStep res r)
    obtain ⟨h1, h2, h3, h4, h5, h6, h7, h8⟩ := hstep
    have hunits : successUnits (r :: rs) =
        (if r.success then r.recordCount else 0) + successUnits rs := by
      unfold successUnits
      cases hs : r.success <;> simp [List.filter_cons, hs]
    have hfail : failureCount (r :: rs) =
        (if r.success then 0 else 1) + failureCount rs := by
      unfold failureCount
      cases hs : r.success <;> simp [List.filter_cons, hs] <;> omega
    have hmin : latencyMin (r :: rs) = min (r.latency : WithTop Nat) (latencyMin rs) := rfl
    have hmax : latencyMax (r :: rs) = max r.latency (latencyMax rs) := rfl
    have hrsfields :
        (recordStep res r).totalRecords =
          res.totalRecords + (if r.success then r.recordCount else 0) ∧
        (recordStep res r).errors = res.errors + (if r.success then 0 else 1) ∧
        (recordStep res r).minLatency = min res.minLatency (r.latency : WithTop Nat) ∧
        (recordStep res r).maxLatency = max res.maxLatency r.latency ∧
        (recordStep res r).avgLatency = res.avgLatency ∧
        (recordStep res r).totalTime = res.totalTime ∧
        (recordStep res r).tps = res.tps ∧
        (recordStep res r).batches = res.batches := by
      unfold recordStep
      cases hs : r.success <;> simp
    obtain ⟨g1, g2, g3, g4, g5, g6, g7, g8⟩ := hrsfields
    refine ⟨?_, ?_, ?_, ?_, ?_, ?_, ?_, ?_⟩
    · rw [List.foldl_cons, h1, g1, hunits]; omega
    · rw [List.foldl_cons, h2, g2, hfail]; omega
    · rw [List.foldl_cons, h3, g3, hmin, min_assoc]
    · rw [List.foldl_cons, h4, g4, hmax, max_assoc]
    · rw [List.foldl_cons, h5, g5]
    · rw [List.foldl_cons, h6, g6]
    · rw [List.foldl_cons, h7, g7]
    · rw [List.foldl_cons, h8, g8]

lemma finalize_frame (res : WriteResults) (records : List WriteRecord)
    (wallClock : Nat) :
    (finalizeResults res records wallClock).totalRecords = res.totalRecords ∧
    (finalizeResults res records wallClock).errors = res.errors ∧
    (finalizeResults res records wallClock).minLatency = res.minLatency ∧
    (finalizeResults res records wallClock).maxLatency = res.maxLatency := by
  unfold finalizeResults
  simp

/-- C10: this.results is initialized only in the constructor; a second run
on the same instance folds its records into the counters left by the first
run, so its reported totals, error tallies and latency extremes include
the first runs contributions, whereas a fresh instance would report only
the second runs records. -/
theorem results_accumulate_across_runs (rs1 rs2 : List WriteRecord)
    (w1 w2 : Nat) :
    (runWriteAggregate (runWriteAggregate initialResults rs1 w1) rs2 w2).totalRecords =
      successUnits rs1 + successUnits rs2 ∧
    (runWriteAggregate (runWriteAggregate initialResults rs1 w1) rs2 w2).errors =
      failureCount rs1 + failureCount rs2 ∧
    (runWriteAggregate (runWriteAggregate initialResults rs1 w1) rs2 w2).minLatency =
      min (latencyMin rs1) (latencyMin rs2) ∧
    (runWriteAggregate (runWriteAggregate initialResults rs1 w1) rs2 w2).maxLatency =
      max (latencyMax rs1) (latencyMax rs2) ∧
    (runWriteAggregate initialResults rs2 w2).totalRecords = successUnits rs2 ∧
    (runWriteAggregate initialResults rs2 w2).errors = failureCount rs2 := by
  have run1 :
      (runWriteAggregate initialResults rs1 w1).totalRecords = successUnits rs1 ∧
      (runWriteAggregate initialResults rs1 w1).errors = failureCount rs1 ∧
      (runWriteAggregate initialResults rs1 w1).minLatency = latencyMin rs1 ∧
      (runWriteAggregate initialResults rs1 w1).maxLatency = latencyMax rs1 := by
    unfold runWriteAggregate
    obtain ⟨f1, f2, f3, f4⟩ := finalize_frame (rs1.foldl recordStep initialResults) rs1 w1
    obtain ⟨h1, h2, h3, h4, -⟩ := foldl_recordStep rs1 initialResults
    rw [f1, f2, f3, f4, h1, h2, h3, h4]
    refine ⟨by simp [initialResults], by simp [initialResults], ?_, ?_⟩
    · show initialResults.minLatency ⊓ latencyMin rs1 = latencyMin rs1
      show (⊤ : WithTop Nat) ⊓ latencyMin rs1 = latencyMin rs1
      exact min_eq_right le_top
    · show initialResults.maxLatency ⊔ latencyMax rs1 = latencyMax rs1
      show 0 ⊔ latencyMax rs1 = latencyMax rs1
      exact Nat.zero_max _
  obtain ⟨r1, r2, r3, r4⟩ := run1
  have run2 :
      (runWriteAggregate initialResults rs2 w2).totalRecords = successUnits rs2 ∧
      (runWriteAggregate initialResults rs2 w2).errors = failureCount rs2 := by
    unfold runWriteAggregate
    obtain ⟨f1, f2, -, -⟩ := finalize_frame (rs2.foldl recordStep initialResults) rs2 w2
    obtain ⟨h1, h2, -⟩ := foldl_recordStep rs2 initialResults
    rw [f1, f2, h1, h2]
    exact ⟨by simp [initialResults], by simp [initialResults]⟩
  obtain ⟨f1, f2, f3, f4⟩ :=
    finalize_frame (rs2.foldl recordStep (runWriteAggregate initialResults rs1 w1)) rs2 w2
  obtain ⟨h1, h2, h3, h4, -⟩ :=
    foldl_recordStep rs2 (runWriteAggregate initialResults rs1 w1)
  refine ⟨?_, ?_, ?_, ?_, run2.1, run2.2⟩
  · show (finalizeResults _ rs2 w2).totalRecords = _
    rw [f1, h1, r1]
  · show (finalizeResults _ rs2 w2).errors = _
    rw [f2, h2, r2]
  · show (finalizeResults _ rs2 w2).minLatency = _
    rw [f3, h3, r3]
  · show (finalizeResults _ rs2 w2).maxLatency = _
    rw [f4, h4, r4]

/-- The strided index list a lane works through: processBatch runs
batchIndex, then reschedules batchIndex + concurrency while it stays below
the total (writeTest.js lines 80-83 and 136-140; identically processQuery
in readTest.js).  The recursion advances by the stride, so a fuel argument
bounds the number of iterations; with fuel = total - j the list is
complete whenever the stride is positive. -/
def processFrom (concurrency total : Nat) : Nat → Nat → List Nat
  | 0, _ => []
  | fuel + 1, j =>
    if j < total then j :: processFrom concurrency total fuel (j + concurrency)
    else []

/-- All indices lane j is statically assigned: j, j + C, j + 2C, and so on
below the total. -/
def laneIndices (concurrency total j : Nat) : List Nat :=
  processFrom concurrency total total j

/-- A worker lane is either idle (between operations, with its pending
strided indices, or finished when the list is empty) or busy awaiting one
in-flight operation.  activeTasks counts exactly the busy lanes
(writeTest.js lines 85 and 117). -/
inductive LaneState where
  | idle (pending : List Nat)
  | busy (current : Nat) (pending : List Nat)
deriving DecidableEq, Repr

/-- The scheduler state: the lanes and the records emitted so far
(the results array of runConcurrentWrites, by operation index). -/
structure EngineState where
  lanes : List LaneState
  emitted : List Nat
deriving DecidableEq, Repr

/-- Indices a lane still owns, its in-flight one included. -/
def laneContents : LaneState → List Nat
  | .idle p => p
  | .busy i p => i :: p

def isBusy : LaneState → Bool
  | .busy _ _ => true
  | .idle _ => false

/-- activeTasks: the number of operations currently in flight. -/
def inFlight (s : EngineState) : Nat := (s.lanes.filter isBusy).length

/-- One cooperative scheduling step.  start: a scheduled lane begins its
next index (activeTasks++, the await begins).  finish: an awaited
operation produces its record (the executor never throws), activeTasks--
and the lane reschedules its remaining stride (writeTest.js lines
80-146). -/
inductive Step : EngineState → EngineState → Prop where
  | start (s : EngineState) (k i : Nat) (rest : List Nat)
      (h : s.lanes.get? k = some (.idle (i :: rest))) :
      Step s ⟨s.lanes.set k (.busy i rest), s.emitted⟩
  | finish (s : EngineState) (k i : Nat) (rest : List Nat)
      (h : s.lanes.get? k = some (.busy i rest)) :
      Step s ⟨s.lanes.set k (.idle rest), s.emitted ++ [i]⟩

/-- Reflexive-transitive closure of the scheduler step. -/
def Reachable (s t : EngineState) : Prop := Relation.ReflTransGen Step s t

/-- A state from which no step is possible: the run can make no further
progress. -/
def Terminal (s : EngineState) : Prop := ∀ t, ¬ Step s t

/-- The start of runConcurrentWrites (writeTest.js lines 143-146): one
lane per initial setImmediate(processBatch(i)) for
i below min(concurrency, totalBatches), each owning its strided index
list; no records yet. -/
def initState (concurrency total : Nat) : EngineState :=
  ⟨(List.range (min concurrency total)).map
      (fun j => .idle (laneIndices concurrency total j)), []⟩

/-- Multiset view of the indices a lane still owns. -/
def laneLoad (l : LaneState) : Multiset Nat := (laneContents l : List Nat)

/-- Multiset of indices a state still owes or has emitted. -/
def stateLoad (s : EngineState) : Multiset Nat :=
  (s.emitted : Multiset Nat) + (s.lanes.map laneLoad).sum

/-- Termination measure: an idle lane owes two steps per pending index; a
busy lane has already spent the start step of its current index. -/
def laneMeasure : LaneState → Nat
  | .idle p => 2 * p.length
  | .busy _ p => 2 * p.length + 1

def engineMeasure (s : EngineState) : Nat := (s.lanes.map laneMeasure).sum

/-- Success tally of the emitted indices, given which operation indices
fail: completedBatches counts the successful records. -/
def successCount (fail : Nat → Bool) (emitted : List Nat) : Nat :=
  (emitted.filter (fun i => !(fail i))).length

/-- Error tally of the emitted indices: this.results.errors counts the
failed records. -/
def errorCount (fail : Nat → Bool) (emitted : List Nat) : Nat :=
  (emitted.filter fail).length

lemma sum_map_set {α β : Type} [AddCommMonoid β] (f : α → β) (l : List α)
    (k : Nat) (a b : α) (h : l.get? k = some a) :
    ((l.set k b).map f).sum + f a = (l.map f).sum + f b := by
  induction l generalizing k with
  | nil => simp at h
  | cons x xs ih =>
    cases k with
    | zero =>
      simp only [List.get?] at h
      injection h with h
      subst h
      simp only [List.set, List.map_cons, List.sum_cons]
      abel
    | succ k =>
      simp only [List.get?] at h
      simp only [List.set, List.map_cons, List.sum_cons]
      rw [add_assoc, ih k h, ← add_assoc]

lemma stateLoad_step {s t : EngineState} (h : Step s t) :
    stateLoad t = stateLoad s := by
  cases h with
  | start k i rest hk =>
    have hsum := sum_map_set laneLoad s.lanes k _ (.busy i rest) hk
    have e1 : laneLoad (LaneState.idle (i :: rest)) = laneLoad (LaneState.busy i rest) := rfl
    rw [e1] at hsum
    have hkey := add_right_cancel hsum
    unfold stateLoad
    rw [hkey]
  | finish k i rest hk =>
    have hsum := sum_map_set laneLoad s.lanes k _ (.idle rest) hk
    have e1 : laneLoad (LaneState.busy i rest) = {i} + laneLoad (LaneState.idle rest) := by
      show (i ::ₘ (rest : Multiset Nat)) = {i} + (rest : Multiset Nat)
      exact (Multiset.singleton_add i _).symm
    rw [e1, ← add_assoc] at hsum
    have hkey := add_right_cancel hsum
    unfold stateLoad
    have hemit : ((s.emitted ++ [i] : List Nat) : Multiset Nat) =
        (s.emitted : Multiset Nat) + {i} := rfl
    rw [← hkey, hemit, add_assoc]
    congr 1
    exact add_comm _ _

lemma stateLoad_reachable {s t : EngineState} (h : Reachable s t) :
    stateLoad t = stateLoad s := by
  induction h with
  | refl => rfl
  | tail _ hstep ih => rw [stateLoad_step hstep, ih]

lemma engineMeasure_step {s t : EngineState} (h : Step s t) :
    engineMeasure t < engineMeasure s := by
  cases h with
  | start k i rest hk =>
    have hsum := sum_map_set laneMeasure s.lanes k _ (.busy i rest) hk
    unfold engineMeasure
    simp only
    simp only [laneMeasure, List.length_cons] at hsum
    omega
  | finish k i rest hk =>
    have hsum := sum_map_set laneMeasure s.lanes k _ (.idle rest) hk
    unfold engineMeasure
    simp only
    simp only [laneMeasure] at hsum
    omega

lemma lanes_length_step {s t : EngineState} (h : Step s t) :
    t.lanes.length = s.lanes.length := by
  cases h <;> simp

lemma lanes_length_reachable {s t : EngineState} (h : Reachable s t) :
    t.lanes.length = s.lanes.length := by
  induction h with
  | refl => rfl
  | tail _ hstep ih => rw [lanes_length_step hstep, ih]

lemma terminal_iff_all_idle_nil (s : EngineState) :
    Terminal s ↔ ∀ l ∈ s.lanes, l = LaneState.idle [] := by
  constructor
  · intro hterm l hl
    obtain ⟨k, hk⟩ := List.mem_iff_get?.mp hl
    match l, hk with
    | .idle [], _ => rfl
    | .idle (i :: rest), hk => exact absurd (Step.start s k i rest hk) (hterm _)
    | .busy i rest, hk => exact absurd (Step.finish s k i rest hk) (hterm _)
  · intro hall t hstep
    cases hstep with
    | start k i rest hk =>
      have := hall _ (List.get?_mem hk)
      simp at this
    | finish k i rest hk =>
      have := hall _ (List.get?_mem hk)
      simp at this

lemma exists_terminal (s : EngineState) :
    ∃ t, Reachable s t ∧ Terminal t := by
  by_cases hterm : Terminal s
  · exact ⟨s, Relation.ReflTransGen.refl, hterm⟩
  · have hstep : ∃ t, Step s t := by
      by_contra hno
      push_neg at hno
      exact hterm hno
    obtain ⟨s1, hs1⟩ := hstep
    have hlt : engineMeasure s1 < engineMeasure s := engineMeasure_step hs1
    have := exists_terminal s1
    obtain ⟨t, ht1, ht2⟩ := this
    exact ⟨t, Relation.ReflTransGen.head hs1 ht1, ht2⟩
termination_by engineMeasure s

lemma stride_cond_shift {conc i j : Nat} (hc : 0 < conc) (hne : i ≠ j) :
    (j + conc ≤ i ∧ conc ∣ (i - (j + conc))) ↔ (j ≤ i ∧ conc ∣ (i - j)) := by
  constructor
  · rintro ⟨h1, h2⟩
    refine ⟨by omega, ?_⟩
    have heq : i - j = (i - (j + conc)) + conc := by omega
    rw [heq]
    exact dvd_add h2 dvd_rfl
  · rintro ⟨h1, h2⟩
    have hlt : j < i := lt_of_le_of_ne h1 (Ne.symm hne)
    have hpos : 0 < i - j := by omega
    have hge : conc ≤ i - j := Nat.le_of_dvd hpos h2
    refine ⟨by omega, ?_⟩
    have heq : i - (j + conc) = (i - j) - conc := by omega
    rw [heq]
    exact Nat.dvd_sub' h2 dvd_rfl

lemma count_processFrom {concurrency : Nat} (hc : 0 < concurrency) (total : Nat) :
    ∀ fuel j, total - j ≤ fuel → ∀ i,
      (processFrom concurrency total fuel j).count i =
        if j ≤ i ∧ i < total ∧ concurrency ∣ (i - j) then 1 else 0 := by
  intro fuel
  induction fuel with
  | zero =>
    intro j hj i
    rw [if_neg]
    · simp [processFrom]
    · rintro ⟨h1, h2, -⟩
      omega
  | succ fuel ih =>
    intro j hj i
    simp only [processFrom]
    by_cases hjt : j < total
    · rw [if_pos hjt, List.count_cons, ih (j + concurrency) (by omega) i]
      by_cases hij : i = j
      · subst hij
        rw [if_neg (by rintro ⟨h1, -⟩; omega)]
        simp [hjt, Nat.sub_self]
      · have hiff : (j + concurrency ≤ i ∧ i < total ∧ concurrency ∣ (i - (j + concurrency))) ↔
            (j ≤ i ∧ i < total ∧ concurrency ∣ (i - j)) := by
          have h := @stride_cond_shift concurrency i j hc hij
          tauto
        have h0 : (if (j == i) = true then (1 : Nat) else 0) = 0 := by
          simp [Ne.symm hij]
        rw [h0, add_zero, if_congr hiff rfl rfl]
    · rw [if_neg hjt, if_neg]
      · simp
      · rintro ⟨h1, h2, -⟩
        omega

lemma count_laneIndices {concurrency : Nat} (hc : 0 < concurrency)
    (total j i : Nat) :
    (laneIndices concurrency total j).count i =
      if j ≤ i ∧ i < total ∧ concurrency ∣ (i - j) then 1 else 0 :=
  count_processFrom hc total total j (by omega) i

lemma mem_laneIndices {concurrency total j i : Nat} (hc : 0 < concurrency) :
    i ∈ laneIndices concurrency total j ↔
      (j ≤ i ∧ i < total ∧ concurrency ∣ (i - j)) := by
  have h := count_laneIndices hc total j i
  constructor
  · intro hm
    by_contra hcond
    rw [if_neg hcond] at h
    exact (List.count_eq_zero.mp h) hm
  · intro hcond
    rw [if_pos hcond] at h
    by_contra hm
    rw [List.count_eq_zero.mpr hm] at h
    omega

lemma lane_of_index {conc : Nat} (hc : 0 < conc) {total i j : Nat}
    (hj : j < min conc total) :
    (j ≤ i ∧ i < total ∧ conc ∣ (i - j)) ↔ (i < total ∧ j = i % conc) := by
  constructor
  · rintro ⟨h1, h2, m, hm⟩
    refine ⟨h2, ?_⟩
    have hi : i = j + conc * m := by omega
    subst hi
    rw [Nat.add_mul_mod_self_left]
    exact (Nat.mod_eq_of_lt (by omega)).symm
  · rintro ⟨h2, rfl⟩
    refine ⟨Nat.mod_le i conc, h2, ?_⟩
    have hmd := Nat.mod_add_div i conc
    refine ⟨i / conc, ?_⟩
    generalize hq : conc * (i / conc) = q at hmd ⊢
    omega

lemma count_sum_map {α : Type} (l : List α) (f : α → Multiset Nat) (i : Nat) :
    Multiset.count i ((l.map f).sum) =
      ((l.map (fun x => Multiset.count i (f x))).sum) := by
  induction l with
  | nil => simp
  | cons x xs ih => simp [Multiset.count_add, ih]

lemma stateLoad_count_init {concurrency total : Nat} (hc : 0 < concurrency)
    (i : Nat) :
    Multiset.count i (stateLoad (initState concurrency total)) =
      if i < total then 1 else 0 := by
  unfold stateLoad initState
  rw [Multiset.count_add]
  have hnil : Multiset.count i (([] : List Nat) : Multiset Nat) = 0 := by simp
  rw [hnil, zero_add, List.map_map, count_sum_map, list_range_sum]
  have hcongr : ∀ j ∈ Finset.range (min concurrency total),
      Multiset.count i ((laneLoad ∘ fun j =>
          LaneState.idle (laneIndices concurrency total j)) j) =
        if j = i % concurrency ∧ i < total then 1 else 0 := by
    intro j hj
    have hjm : j < min concurrency total := Finset.mem_range.mp hj
    show Multiset.count i ((laneIndices concurrency total j : List Nat) : Multiset Nat) = _
    rw [Multiset.coe_count, count_laneIndices hc,
        if_congr (lane_of_index hc hjm) rfl rfl]
    by_cases h1 : i < total
    · by_cases h2 : j = i % concurrency
      · rw [if_pos ⟨h1, h2⟩, if_pos ⟨h2, h1⟩]
      · rw [if_neg (by tauto), if_neg (by tauto)]
    · rw [if_neg (by tauto), if_neg (by tauto)]
  rw [Finset.sum_congr rfl hcongr]
  by_cases hi : i < total
  · have hsimp : ∀ j : Nat, (if j = i % concurrency ∧ i < total then (1 : Nat) else 0) =
        if j = i % concurrency then 1 else 0 := by
      intro j
      exact if_congr (and_iff_left hi) rfl rfl
    rw [Finset.sum_congr rfl (fun j _ => hsimp j), Finset.sum_ite_eq']
    have hmem : i % concurrency ∈ Finset.range (min concurrency total) := by
      rw [Finset.mem_range]
      have h1 : i % concurrency < concurrency := Nat.mod_lt i hc
      have h2 : i % concurrency ≤ i := Nat.mod_le i concurrency
      exact lt_min h1 (by omega)
    rw [if_pos hmem, if_pos hi]
  · have hz : ∀ j ∈ Finset.range (min concurrency total),
        (if j = i % concurrency ∧ i < total then (1 : Nat) else 0) = 0 := by
      intro j _
      rw [if_neg (by tauto)]
    rw [Finset.sum_congr rfl hz, Finset.sum_const, smul_zero, if_neg hi]

lemma emitted_at_terminal {concurrency total : Nat} (hc : 0 < concurrency)
    {s : EngineState} (hr : Reachable (initState concurrency total) s)
    (ht : Terminal s) (i : Nat) :
    s.emitted.count i = if i < total then 1 else 0 := by
  have hload := stateLoad_reachable hr
  have hall := (terminal_iff_all_idle_nil s).mp ht
  have hzero : (s.lanes.map laneLoad).sum = 0 := by
    apply List.sum_eq_zero
    intro x hx
    obtain ⟨l, hl, rfl⟩ := List.mem_map.mp hx
    rw [hall l hl]
    rfl
  have hemitted : stateLoad s = (s.emitted : Multiset Nat) := by
    unfold stateLoad
    rw [hzero, add_zero]
  calc s.emitted.count i
      = Multiset.count i (s.emitted : Multiset Nat) := (Multiset.coe_count _ _).symm
    _ = Multiset.count i (stateLoad s) := by rw [hemitted]
    _ = Multiset.count i (stateLoad (initState concurrency total)) := by rw [hload]
    _ = if i < total then 1 else 0 := stateLoad_count_init hc i

lemma emitted_perm_range {concurrency total : Nat} (hc : 0 < concurrency)
    {s : EngineState} (hr : Reachable (initState concurrency total) s)
    (ht : Terminal s) :
    s.emitted.Perm (List.range total) := by
  rw [List.perm_iff_count]
  intro a
  rw [emitted_at_terminal hc hr ht a]
  by_cases h : a < total
  · rw [if_pos h,
        List.count_eq_one_of_mem (List.nodup_range total) (List.mem_range.mpr h)]
  · rw [if_neg h, eq_comm, List.count_eq_zero]
    rw [List.mem_range]
    omega

lemma emitted_length_at_terminal {concurrency total : Nat} (hc : 0 < concurrency)
    {s : EngineState} (hr : Reachable (initState concurrency total) s)
    (ht : Terminal s) :
    s.emitted.length = total := by
  rw [(emitted_perm_range hc hr ht).length_eq, List.length_range]

/-- C1: for every configuration with positive total and concurrency the
run terminates (a terminal state is reachable and every scheduler step
strictly decreases a natural measure), and in every terminal state each
operation index below the total has been attempted exactly once, none
twice, none skipped; the record count equals the total and the success
tally plus the error tally equals the total, whichever operations
failed. -/
theorem run_attempts_each_index_exactly_once (concurrency total : Nat)
    (fail : Nat → Bool) (hc : 1 ≤ concurrency) (htot : 1 ≤ total) :
    (∃ t, Reachable (initState concurrency total) t ∧ Terminal t) ∧
    (∀ s t, Step s t → engineMeasure t < engineMeasure s) ∧
    (∀ s, Reachable (initState concurrency total) s → Terminal s →
      (∀ i, s.emitted.count i = if i < total then 1 else 0) ∧
      s.emitted.length = total ∧
      successCount fail s.emitted + errorCount fail s.emitted = total) := by
  refine ⟨exists_terminal _, fun s t h => engineMeasure_step h, ?_⟩
  intro s hr hterm
  refine ⟨emitted_at_terminal hc hr hterm,
    emitted_length_at_terminal hc hr hterm, ?_⟩
  unfold successCount errorCount
  have hperm := (List.filter_append_perm fail s.emitted).length_eq
  rw [List.length_append, emitted_length_at_terminal hc hr hterm] at hperm
  omega

/-- A terminal state of the run with concurrency 2 and total 3: both lanes
exhausted, indices 0, 2, 1 emitted. -/
def finalState23 : EngineState :=
  ⟨[LaneState.idle [], LaneState.idle []], [0, 2, 1]⟩

lemma reachable_final23 : Reachable (initState 2 3) finalState23 := by
  have h1 : Step ⟨[LaneState.idle [0, 2], LaneState.idle [1]], []⟩
      ⟨[LaneState.busy 0 [2], LaneState.idle [1]], []⟩ :=
    Step.start _ 0 0 [2] rfl
  have h2 : Step ⟨[LaneState.busy 0 [2], LaneState.idle [1]], []⟩
      ⟨[LaneState.idle [2], LaneState.idle [1]], [0]⟩ :=
    Step.finish _ 0 0 [2] rfl
  have h3 : Step ⟨[LaneState.idle [2], LaneState.idle [1]], [0]⟩
      ⟨[LaneState.busy 2 [], LaneState.idle [1]], [0]⟩ :=
    Step.start _ 0 2 [] rfl
  have h4 : Step ⟨[LaneState.busy 2 [], LaneState.idle [1]], [0]⟩
      ⟨[LaneState.idle [], LaneState.idle [1]], [0, 2]⟩ :=
    Step.finish _ 0 2 [] rfl
  have h5 : Step ⟨[LaneState.idle [], LaneState.idle [1]], [0, 2]⟩
      ⟨[LaneState.idle [], LaneState.busy 1 []], [0, 2]⟩ :=
    Step.start _ 1 1 [] rfl
  have h6 : Step ⟨[LaneState.idle [], LaneState.busy 1 []], [0, 2]⟩
      ⟨[LaneState.idle [], LaneState.idle []], [0, 2, 1]⟩ :=
    Step.finish _ 1 1 [] rfl
  exact Relation.ReflTransGen.head h1 (Relation.ReflTransGen.head h2
    (Relation.ReflTransGen.head h3 (Relation.ReflTransGen.head h4
      (Relation.ReflTransGen.head h5 (Relation.ReflTransGen.head h6
        Relation.ReflTransGen.refl)))))

lemma terminal_final23 : Terminal finalState23 :=
  (terminal_iff_all_idle_nil finalState23).mpr (by decide)

/-- C1 witness: the concrete run with concurrency 2 and total 3 reaching
the terminal state with emitted indices 0, 2, 1, no operation failing. -/
theorem run_attempts_witness :
    (∀ i, finalState23.emitted.count i = if i < 3 then 1 else 0) ∧
    finalState23.emitted.length = 3 ∧
    successCount (fun _ => false) finalState23.emitted +
      errorCount (fun _ => false) finalState23.emitted = 3 :=
  (run_attempts_each_index_exactly_once 2 3 (fun _ => false)
    (by decide) (by decide)).2.2 finalState23 reachable_final23 terminal_final23

/-- C3: with total 0 (totalBatches = 0 for any nonpositive configured
total) the engine does not refuse to run: the initial state has no lanes
at all, no scheduler step is possible and no record is ever produced.
Since the promise of runConcurrentWrites is resolved only inside the
completion check that runs after a record is produced, the promise never
settles and run() never returns, instead of raising a configuration
error. -/
theorem zero_total_run_never_starts :
    Terminal (initState 10 0) ∧ (initState 10 0).emitted = [] ∧
    (initState 10 0).lanes = [] := by
  refine ⟨?_, rfl, rfl⟩
  rw [terminal_iff_all_idle_nil]
  intro l hl
  simp [initState] at hl

/-- C6: deterministic striping.  Lane j of the initial dispatch owns
exactly the indices j, j + C, j + 2C and so on below the total, and every
index i below the total lies in exactly one lane, the lane i mod min(C, total):
that lane contains i exactly once and no other lane contains i. -/
theorem striping_determinism (concurrency total : Nat) (hc : 1 ≤ concurrency) :
    (∀ j x, j < min concurrency total →
      (x ∈ laneIndices concurrency total j ↔
        ((∃ m, x = j + m * concurrency) ∧ x < total))) ∧
    (∀ i, i < total →
      i % min concurrency total < min concurrency total ∧
      (laneIndices concurrency total (i % min concurrency total)).count i = 1 ∧
      (∀ j, j < min concurrency total → j ≠ i % min concurrency total →
        i ∉ laneIndices concurrency total j)) := by
  constructor
  · intro j x hj
    rw [mem_laneIndices hc]
    constructor
    · rintro ⟨h1, h2, m, hm⟩
      have hcm : m * concurrency = concurrency * m := Nat.mul_comm m concurrency
      exact ⟨⟨m, by omega⟩, h2⟩
    · rintro ⟨⟨m, hm⟩, h2⟩
      have hcm : m * concurrency = concurrency * m := Nat.mul_comm m concurrency
      refine ⟨by omega, h2, m, by omega⟩
  · intro i hi
    have hminpos : 0 < min concurrency total := lt_min hc (by omega)
    have hmod : i % min concurrency total = i % concurrency := by
      rcases Nat.le_total concurrency total with h | h
      · rw [Nat.min_eq_left h]
      · rw [Nat.min_eq_right h, Nat.mod_eq_of_lt (by omega),
          Nat.mod_eq_of_lt (by omega)]
    have hj0 : i % min concurrency total < min concurrency total :=
      Nat.mod_lt i hminpos
    refine ⟨hj0, ?_, ?_⟩
    · rw [count_laneIndices hc, if_pos]
      exact (lane_of_index hc hj0).mpr ⟨hi, hmod⟩
    · intro j hjm hne hmem
      have hcond := (mem_laneIndices hc).mp hmem
      have := ((lane_of_index hc hjm).mp hcond).2
      rw [← hmod] at this
      exact hne this

/-- C6 witness: with concurrency 2 and total 5, index 3 lives exactly once
in lane 3 mod 2 = 1 and in no other lane. -/
theorem striping_witness :
    3 % min 2 5 < min 2 5 ∧
    (laneIndices 2 5 (3 % min 2 5)).count 3 = 1 ∧
    (∀ j, j < min 2 5 → j ≠ 3 % min 2 5 → 3 ∉ laneIndices 2 5 j) :=
  (striping_determinism 2 5 (by decide)).2 3 (by decide)

/-- The indices lane k still owns in a state, its in-flight one first. -/
def laneView (s : EngineState) (k : Nat) : List Nat :=
  match s.lanes.get? k with
  | some l => laneContents l
  | none => []

lemma laneView_init (concurrency total k : Nat) :
    laneView (initState concurrency total) k =
      if k < min concurrency total then laneIndices concurrency total k
      else [] := by
  unfold laneView initState
  by_cases hk : k < min concurrency total
  · rw [if_pos hk]
    simp only
    rw [List.get?_map, List.get?_range hk]
    rfl
  · rw [if_neg hk]
    simp only
    have hnone : ((List.range (min concurrency total)).map
        (fun j => LaneState.idle (laneIndices concurrency total j))).get? k = none := by
      rw [List.get?_eq_none]
      simpa using Nat.le_of_not_lt hk
    rw [hnone]

lemma laneView_step {s t : EngineState} (h : Step s t) (k : Nat) :
    laneView t k = laneView s k ∨ ∃ x, laneView s k = x :: laneView t k := by
  cases h with
  | start k' i rest hk =>
    by_cases he : k' = k
    · subst he
      left
      unfold laneView
      simp only
      have hset : (s.lanes.set k' (LaneState.busy i rest)).get? k' =
          some (LaneState.busy i rest) := by
        rw [List.get?_set_eq, hk]
        rfl
      rw [hset, hk]
      rfl
    · left
      unfold laneView
      simp only
      rw [List.get?_set_ne _ _ he]
  | finish k' i rest hk =>
    by_cases he : k' = k
    · subst he
      right
      refine ⟨i, ?_⟩
      unfold laneView
      simp only
      have hset : (s.lanes.set k' (LaneState.idle rest)).get? k' =
          some (LaneState.idle rest) := by
        rw [List.get?_set_eq, hk]
        rfl
      rw [hset, hk]
      rfl
    · left
      unfold laneView
      simp only
      rw [List.get?_set_ne _ _ he]

lemma laneView_suffix {concurrency total : Nat} {s : EngineState}
    (hr : Reachable (initState concurrency total) s) (k : Nat) :
    laneView s k <:+ laneIndices concurrency total k := by
  induction hr with
  | refl =>
    rw [laneView_init]
    by_cases hk : k < min concurrency total
    · rw [if_pos hk]
    · rw [if_neg hk]
      exact List.nil_suffix
  | tail hr hstep ih =>
    rcases laneView_step hstep k with heq | ⟨x, hx⟩
    · rw [heq]
      exact ih
    · refine List.IsSuffix.trans ?_ ih
      rw [hx]
      exact List.suffix_cons x _

lemma inFlight_le_lanes (s : EngineState) : inFlight s ≤ s.lanes.length :=
  List.length_filter_le _ _

/-- C8: in every reachable state of the run, the number of in-flight
operations (busy lanes, the activeTasks counter) is at most the effective
concurrency min(C, total); moreover each lane only ever works downwards
through its statically assigned strided index list: what lane k still
owns, its at most one in-flight index first, is always a suffix of its
initial assignment, so a lane dispatches its next stride index only after
the current one produced its record and no index moves between lanes. -/
theorem in_flight_bounded_by_concurrency (concurrency total : Nat)
    (hc : 1 ≤ concurrency) {s : EngineState}
    (hr : Reachable (initState concurrency total) s) :
    inFlight s ≤ min concurrency total ∧
    ∀ k, laneView s k <:+ laneIndices concurrency total k := by
  constructor
  · have h1 := inFlight_le_lanes s
    have h2 := lanes_length_reachable hr
    have h3 : (initState concurrency total).lanes.length =
        min concurrency total := by
      unfold initState
      simp
    omega
  · intro k
    exact laneView_suffix hr k

/-- C8 witness: applied to the reachable mid-run state of the concurrency 2,
total 3 run in which lane 0 is busy with index 0. -/
theorem in_flight_witness :
    inFlight ⟨[LaneState.busy 0 [2], LaneState.idle [1]], []⟩ ≤ min 2 3 ∧
    ∀ k, laneView ⟨[LaneState.busy 0 [2], LaneState.idle [1]], []⟩ k <:+
      laneIndices 2 3 k :=
  in_flight_bounded_by_concurrency 2 3 (by decide)
    (Relation.ReflTransGen.head (Step.start _ 0 0 [2] rfl)
      Relation.ReflTransGen.refl)

/-- The records a run produces when the backend fails on every operation:
one executeBatch failure record per emitted index. -/
def allFailRecords (msg : Nat → String) (len lat : Nat → Nat)
    (emitted : List Nat) : List WriteRecord :=
  emitted.map (fun i => executeBatch (Except.error (msg i)) (len i) i (lat i))

lemma allFailRecords_no_success (msg : Nat → String) (len lat : Nat → Nat)
    (emitted : List Nat) :
    (allFailRecords msg len lat emitted).filter (·.success) = [] := by
  induction emitted with
  | nil => rfl
  | cons i rest ih =>
    simp only [allFailRecords, List.map_cons, List.filter_cons] at ih ⊢
    rw [ih]
    rfl

lemma allFailRecords_failureCount (msg : Nat → String) (len lat : Nat → Nat)
    (emitted : List Nat) :
    failureCount (allFailRecords msg len lat emitted) = emitted.length := by
  induction emitted with
  | nil => rfl
  | cons i rest ih =>
    simp only [allFailRecords, failureCount, List.map_cons,
      List.filter_cons] at ih ⊢
    rw [if_pos (by rfl), List.length_cons, ih]
    rfl

lemma allFailRecords_successUnits (msg : Nat → String) (len lat : Nat → Nat)
    (emitted : List Nat) :
    successUnits (allFailRecords msg len lat emitted) = 0 := by
  unfold successUnits
  rw [allFailRecords_no_success]
  rfl

/-- C7: a run in which every backend operation fails still completes: in
every terminal reachable state all total indices have produced failure
records, and folding those records through the results object of a fresh
WriteTest instance yields a well-formed aggregate with errorCount = total,
zero successful units, avgLatency left at its initial 0 (the average is
computed only over successful records and none exist) and a rate computed
by dividing the zero unit total by the elapsed wall clock. -/
theorem all_failure_run_completes (concurrency total wallClock : Nat)
    (msg : Nat → String) (len lat : Nat → Nat)
    (hc : 1 ≤ concurrency) (htot : 1 ≤ total) {s : EngineState}
    (hr : Reachable (initState concurrency total) s) (hterm : Terminal s) :
    failureCount (allFailRecords msg len lat s.emitted) = total ∧
    (runWriteAggregate initialResults (allFailRecords msg len lat s.emitted)
        wallClock).errors = total ∧
    (runWriteAggregate initialResults (allFailRecords msg len lat s.emitted)
        wallClock).totalRecords = 0 ∧
    (runWriteAggregate initialResults (allFailRecords msg len lat s.emitted)
        wallClock).avgLatency = 0 ∧
    (runWriteAggregate initialResults (allFailRecords msg len lat s.emitted)
        wallClock).tps = computeTps 0 wallClock ∧
    (runWriteAggregate initialResults (allFailRecords msg len lat s.emitted)
        wallClock).totalTime = wallClock := by
  have hlen := emitted_length_at_terminal hc hr hterm
  have hfail : failureCount (allFailRecords msg len lat s.emitted) = total := by
    rw [allFailRecords_failureCount, hlen]
  have hnosucc := allFailRecords_no_success msg len lat s.emitted
  obtain ⟨g1, g2, -, -, g5, g6, g7, -⟩ :=
    foldl_recordStep (allFailRecords msg len lat s.emitted) initialResults
  have hTR : ((allFailRecords msg len lat s.emitted).foldl recordStep
      initialResults).totalRecords = 0 := by
    rw [g1, allFailRecords_successUnits]
    simp [initialResults]
  refine ⟨hfail, ?_, ?_, ?_, ?_, ?_⟩
  · unfold runWriteAggregate
    rw [(finalize_frame _ _ _).2.1, g2, hfail]
    simp [initialResults]
  · unfold runWriteAggregate
    rw [(finalize_frame _ _ _).1, hTR]
  · unfold runWriteAggregate finalizeResults
    simp only [hnosucc]
    rw [g5]
    simp [initialResults]
  · unfold runWriteAggregate finalizeResults
    simp only
    rw [hTR]
  · unfold runWriteAggregate finalizeResults
    simp only

/-- A terminal state of the run with concurrency 2 and total 5: both lanes
exhausted, indices 0, 2, 4, 1, 3 emitted. -/
def finalState25 : EngineState :=
  ⟨[LaneState.idle [], LaneState.idle []], [0, 2, 4, 1, 3]⟩

lemma reachable_final25 : Reachable (initState 2 5) finalState25 := by
  have h1 : Step ⟨[LaneState.idle [0, 2, 4], LaneState.idle [1, 3]], []⟩
      ⟨[LaneState.busy 0 [2, 4], LaneState.idle [1, 3]], []⟩ :=
    Step.start _ 0 0 [2, 4] rfl
  have h2 : Step ⟨[LaneState.busy 0 [2, 4], LaneState.idle [1, 3]], []⟩
      ⟨[LaneState.idle [2, 4], LaneState.idle [1, 3]], [0]⟩ :=
    Step.finish _ 0 0 [2, 4] rfl
  have h3 : Step ⟨[LaneState.idle [2, 4], LaneState.idle [1, 3]], [0]⟩
      ⟨[LaneState.busy 2 [4], LaneState.idle [1, 3]], [0]⟩ :=
    Step.start _ 0 2 [4] rfl
  have h4 : Step ⟨[LaneState.busy 2 [4], LaneState.idle [1, 3]], [0]⟩
      ⟨[LaneState.idle [4], LaneState.idle [1, 3]], [0, 2]⟩ :=
    Step.finish _ 0 2 [4] rfl
  have h5 : Step ⟨[LaneState.idle [4], LaneState.idle [1, 3]], [0, 2]⟩
      ⟨[LaneState.busy 4 [], LaneState.idle [1, 3]], [0, 2]⟩ :=
    Step.start _ 0 4 [] rfl
  have h6 : Step ⟨[LaneState.busy 4 [], LaneState.idle [1, 3]], [0, 2]⟩
      ⟨[LaneState.idle [], LaneState.idle [1, 3]], [0, 2, 4]⟩ :=
    Step.finish _ 0 4 [] rfl
  have h7 : Step ⟨[LaneState.idle [], LaneState.idle [1, 3]], [0, 2, 4]⟩
      ⟨[LaneState.idle [], LaneState.busy 1 [3]], [0, 2, 4]⟩ :=
    Step.start _ 1 1 [3] rfl
  have h8 : Step ⟨[LaneState.idle [], LaneState.busy 1 [3]], [0, 2, 4]⟩
      ⟨[LaneState.idle [], LaneState.idle [3]], [0, 2, 4, 1]⟩ :=
    Step.finish _ 1 1 [3] rfl
  have h9 : Step ⟨[LaneState.idle [], LaneState.idle [3]], [0, 2, 4, 1]⟩
      ⟨[LaneState.idle [], LaneState.busy 3 []], [0, 2, 4, 1]⟩ :=
    Step.start _ 1 3 [] rfl
  have h10 : Step ⟨[LaneState.idle [], LaneState.busy 3 []], [0, 2, 4, 1]⟩
      ⟨[LaneState.idle [], LaneState.idle []], [0, 2, 4, 1, 3]⟩ :=
    Step.finish _ 1 3 [] rfl
  exact Relation.ReflTransGen.head h1 (Relation.ReflTransGen.head h2
    (Relation.ReflTransGen.head h3 (Relation.ReflTransGen.head h4
      (Relation.ReflTransGen.head h5 (Relation.ReflTransGen.head h6
        (Relation.ReflTransGen.head h7 (Relation.ReflTransGen.head h8
          (Relation.ReflTransGen.head h9 (Relation.ReflTransGen.head h10
            Relation.ReflTransGen.refl)))))))))

lemma terminal_final25 : Terminal finalState25 :=
  (terminal_iff_all_idle_nil finalState25).mpr (by decide)

/-- C7 witness: the all-failure scenario of the specification, total 5 and
concurrency 2, run to its terminal state with wall clock 7 ms. -/
theorem all_failure_witness :
    failureCount (allFailRecords (fun _ => "boom") (fun _ => 4) (fun i => i)
      finalState25.emitted) = 5 ∧
    (runWriteAggregate initialResults
        (allFailRecords (fun _ => "boom") (fun _ => 4) (fun i => i)
          finalState25.emitted) 7).errors = 5 ∧
    (runWriteAggregate initialResults
        (allFailRecords (fun _ => "boom") (fun _ => 4) (fun i => i)
          finalState25.emitted) 7).totalRecords = 0 ∧
    (runWriteAggregate initialResults
        (allFailRecords (fun _ => "boom") (fun _ => 4) (fun i => i)
          finalState25.emitted) 7).avgLatency = 0 ∧
    (runWriteAggregate initialResults
        (allFailRecords (fun _ => "boom") (fun _ => 4) (fun i => i)
          finalState25.emitted) 7).tps = computeTps 0 7 ∧
    (runWriteAggregate initialResults
        (allFailRecords (fun _ => "boom") (fun _ => 4) (fun i => i)
          finalState25.emitted) 7).totalTime = 7 :=
  all_failure_run_completes 2 5 7 (fun _ => "boom") (fun _ => 4) (fun i => i)
    (by decide) (by decide) reachable_final25 terminal_final25

end LoadTest
